import Mathlib

/-!
Verification of the Contentful users-and-groups export script.

This file gives a shallow embedding, in Lean, of the script
`fetch-contentful-users-and-groups.js`.  JavaScript values are modelled as
follows:

* Strings that the script only ever tests for truthiness and then reads are
  modelled as Lean `String`, with `""` standing for both the empty string and
  an absent (`undefined`) value — the two are indistinguishable to the
  script's `if (x)` / `x || ""` checks.
* The `roles` field, which the script guards with `Array.isArray`, is
  modelled as a `List`; an absent or non-array value behaves exactly like
  the empty list (the guarded `forEach` body never runs).
* JS `Map` and plain-object maps are modelled as insertion-ordered
  association lists, matching JS iteration order for string keys.
* The network is modelled as a function from page offset to an optional
  response; `none` models a request that throws (the `catch` branch).
* The unbounded `while (true)` pagination loop is modelled with an explicit
  fuel parameter; the theorems show the loop finishes (ignoring remaining
  fuel) whenever the server reports a fixed total.
-/

set_option linter.unusedVariables false
set_option maxRecDepth 8000

namespace ContentfulExport

/-- First-occurrence deduplication with an accumulator of already-seen
elements: the model of the JS idiom `[...new Set(list)]`, which keeps the
first occurrence of each element in insertion order. -/
def dedupFirstAux (seen : List String) : List String → List String
  | [] => []
  | x :: xs =>
    if x ∈ seen then dedupFirstAux seen xs
    else x :: dedupFirstAux (seen ++ [x]) xs

/-- Model of `[...new Set(list)]`: keep the first occurrence of each element,
in order. -/
def dedupFirst (l : List String) : List String := dedupFirstAux [] l

/-- Model of `[...new Set([...a, ...b])]`, the script's set-union idiom used
when merging role and team name lists. -/
def setUnion (a b : List String) : List String := dedupFirst (a ++ b)

theorem mem_dedupFirstAux (y : String) :
    ∀ (l seen : List String), y ∈ dedupFirstAux seen l ↔ y ∈ l ∧ y ∉ seen := by
  intro l
  induction l with
  | nil => intro seen; simp [dedupFirstAux]
  | cons x xs ih =>
    intro seen
    by_cases hx : x ∈ seen
    · simp only [dedupFirstAux, if_pos hx, ih, List.mem_cons]
      constructor
      · rintro ⟨hy, hns⟩
        exact ⟨Or.inr hy, hns⟩
      · rintro ⟨rfl | hy, hns⟩
        · exact absurd hx hns
        · exact ⟨hy, hns⟩
    · simp only [dedupFirstAux, if_neg hx, List.mem_cons, ih, List.mem_append,
        List.mem_singleton]
      constructor
      · rintro (rfl | ⟨hy, hns⟩)
        · exact ⟨Or.inl rfl, hx⟩
        · push_neg at hns
          exact ⟨Or.inr hy, hns.1⟩
      · rintro ⟨rfl | hy, hns⟩
        · exact Or.inl rfl
        · by_cases hyx : y = x
          · exact Or.inl hyx
          · refine Or.inr ⟨hy, ?_⟩
            push_neg
            exact ⟨hns, hyx, List.not_mem_nil y⟩

theorem nodup_dedupFirstAux :
    ∀ (l seen : List String), (dedupFirstAux seen l).Nodup := by
  intro l
  induction l with
  | nil => intro seen; simp [dedupFirstAux]
  | cons x xs ih =>
    intro seen
    by_cases hx : x ∈ seen
    · simpa [dedupFirstAux, if_pos hx] using ih seen
    · simp only [dedupFirstAux, if_neg hx, List.nodup_cons]
      refine ⟨?_, ih (seen ++ [x])⟩
      intro hmem
      rcases (mem_dedupFirstAux x xs (seen ++ [x])).1 hmem with ⟨_, hns⟩
      simp at hns

theorem sublist_dedupFirstAux :
    ∀ (l seen : List String), (dedupFirstAux seen l).Sublist l := by
  intro l
  induction l with
  | nil => intro seen; simp [dedupFirstAux]
  | cons x xs ih =>
    intro seen
    by_cases hx : x ∈ seen
    · simpa [dedupFirstAux, if_pos hx] using (ih seen).cons x
    · simpa [dedupFirstAux, if_neg hx] using (ih (seen ++ [x])).cons₂ x

theorem dedupFirstAux_append_left :
    ∀ (a : List String) (seen : List String) (b : List String),
      a.Nodup → (∀ x ∈ a, x ∉ seen) →
      dedupFirstAux seen (a ++ b) = a ++ dedupFirstAux (seen ++ a) b := by
  intro a
  induction a with
  | nil => intro seen b _ _; simp
  | cons x xs ih =>
    intro seen b hnd hdis
    have hx : x ∉ seen := hdis x (List.mem_cons_self x xs)
    have hnd' : xs.Nodup := List.Nodup.of_cons hnd
    have hdis' : ∀ y ∈ xs, y ∉ seen ++ [x] := by
      intro y hy
      simp only [List.mem_append, List.mem_singleton]
      push_neg
      refine ⟨hdis y (List.mem_cons_of_mem x hy), ?_⟩
      intro h
      exact (List.nodup_cons.1 hnd).1 (h ▸ hy)
    simp only [List.cons_append, dedupFirstAux, if_neg hx, List.append_eq]
    rw [ih (seen ++ [x]) b hnd' hdis']
    simp [List.append_assoc]

theorem dedupFirst_nodup (l : List String) : (dedupFirst l).Nodup :=
  nodup_dedupFirstAux l []

theorem dedupFirst_sublist (l : List String) : (dedupFirst l).Sublist l :=
  sublist_dedupFirstAux l []

theorem mem_dedupFirst (y : String) (l : List String) :
    y ∈ dedupFirst l ↔ y ∈ l := by
  simpa using mem_dedupFirstAux y l []

theorem dedupFirst_eq_self (l : List String) (h : l.Nodup) : dedupFirst l = l := by
  have := dedupFirstAux_append_left l [] [] h (by simp)
  simpa [dedupFirst, dedupFirstAux] using this

theorem setUnion_nodup (a b : List String) : (setUnion a b).Nodup :=
  dedupFirst_nodup (a ++ b)

theorem mem_setUnion (y : String) (a b : List String) :
    y ∈ setUnion a b ↔ y ∈ a ∨ y ∈ b := by
  simp [setUnion, mem_dedupFirst]

theorem setUnion_eq_append (a b : List String) (h : a.Nodup) :
    ∃ ext, setUnion a b = a ++ ext := by
  refine ⟨dedupFirstAux a b, ?_⟩
  have := dedupFirstAux_append_left a [] b h (by simp)
  simpa [setUnion, dedupFirst] using this

/-- One entry of a membership's `roles` array.  The script reads `r.name`
guarded by a truthiness test, so an absent or empty name is modelled as
`""`. -/
structure RoleEntry where
  name : String
deriving Repr, DecidableEq

/-- A membership item (organization, space or team membership).  The script
reads `membership.sys?.user?.sys?.id` (modelled as `userId`, with `""` for a
missing identifier), the boolean `admin` flag, the `roles` array (absent or
non-array behaves as `[]`) and the legacy `role` string (`""` when absent). -/
structure Membership where
  userId : String
  admin : Bool
  roles : List RoleEntry
  role : String
deriving Repr, DecidableEq

/-- The three role-name sources of `getRoleNames`, concatenated in the order
the script pushes them: the `"Admin"` label when the admin flag is set, then
the named entries of the `roles` array in array order (unnamed entries
skipped), then the legacy `role` string when present. -/
def rolesSources (m : Membership) : List String :=
  (if m.admin then ["Admin"] else [])
    ++ m.roles.filterMap (fun r => if r.name = "" then none else some r.name)
    ++ (if m.role = "" then [] else [m.role])

/-- Model of `getRoleNames`: push the three sources into one array, then
de-duplicate with `[...new Set(results)]`. -/
def getRoleNames (m : Membership) : List String := dedupFirst (rolesSources m)

/-- A user object from an `includes.User` block: identifier, email, first
and last name, each `""` when absent (the script collapses absent values to
`""` with `|| ""`). -/
structure UserRec where
  id : String
  email : String
  firstName : String
  lastName : String
deriving Repr, DecidableEq

/-- A side table mapping user identifier to user object, modelling the JS
`Map` `allUsers` as an insertion-ordered association list. -/
abbrev Users := List (String × UserRec)

/-- Model of `allUsers.get(userId)`. -/
def usersGet (users : Users) (k : String) : Option UserRec :=
  (users.find? (fun p => p.1 = k)).map (·.2)

/-- Model of `allUsers.set(u.sys.id, u)` guarded by `if (u.sys?.id)`:
overwrite the entry in place when the key exists, append otherwise. -/
def upsertUser (users : Users) (u : UserRec) : Users :=
  if u.id = "" then users
  else if users.any (fun p => p.1 = u.id) then
    users.map (fun p => if p.1 = u.id then (u.id, u) else p)
  else users ++ [(u.id, u)]

/-- Trim on character lists: drop leading whitespace, then drop trailing
whitespace. -/
def trimChars (l : List Char) : List Char :=
  (((l.dropWhile Char.isWhitespace).reverse.dropWhile Char.isWhitespace).reverse)

/-- Model of the JS `String.prototype.trim()` used when deriving a display
name. -/
def jsTrim (s : String) : String := ⟨trimChars s.data⟩

/-- The display-name derivation inlined in both merge loops:
the template literal joining first and last name with a single
space, followed by `.trim()`. -/
def deriveName (firstName lastName : String) : String :=
  jsTrim (firstName ++ " " ++ lastName)

/-- One page of a paginated API response: the `items` list, the
server-reported `total`, and the `includes.User` block (absent modelled as
`[]`, which the guarded `forEach` treats identically). -/
structure Page (I : Type) where
  items : List I
  total : Nat
  includesUser : List UserRec
deriving Repr

/-- The state returned by `fetchPagedDataWithIncludes`: the accumulated
items and user side-table, plus two observations used by the theorems —
the list of offsets at which page requests were issued, and whether the
loop ended in the `catch` branch (where the script logs a warning). -/
structure FetchResult (I : Type) where
  allItems : List I
  allUsers : Users
  offsets : List Nat
  failed : Bool
deriving Repr

/-- One successful loop iteration of `fetchPagedDataWithIncludes`:
`allItems.push(...items)`, the `includes.User.forEach` upserts, and the
record that a request was issued at offset `skip`. -/
def pageStep {I : Type} (st : FetchResult I) (skip : Nat) (pg : Page I) :
    FetchResult I :=
  { allItems := st.allItems ++ pg.items
    allUsers := pg.includesUser.foldl upsertUser st.allUsers
    offsets := st.offsets ++ [skip]
    failed := st.failed }

/-- The `while (true)` pagination loop.  The server is a function from
offset to an optional page; `none` models a request that throws, reaching
the `catch` branch which logs and breaks.  On success the loop breaks when
`skip + limit >= total` (limit is the fixed page size 100), otherwise it
continues at `skip + 100`.  `fuel` bounds the number of iterations; the
theorems only use runs that finish strictly within the fuel. -/
def fetchGo {I : Type} (server : Nat → Option (Page I)) :
    Nat → Nat → FetchResult I → FetchResult I
  | 0, _, st => st
  | fuel + 1, skip, st =>
    match server skip with
    | none => { st with offsets := st.offsets ++ [skip], failed := true }
    | some pg =>
      if skip + 100 < pg.total then
        fetchGo server fuel (skip + 100) (pageStep st skip pg)
      else pageStep st skip pg

/-- Model of `fetchPagedDataWithIncludes(url, includeParams)`: run the
pagination loop from `skip = 0` with empty accumulators. -/
def fetchPagedDataWithIncludes {I : Type} (server : Nat → Option (Page I))
    (fuel : Nat) : FetchResult I :=
  fetchGo server fuel 0 { allItems := [], allUsers := [], offsets := [], failed := false }

/-- The page a server returns at an offset, defaulting to an empty page
(only used to state results about offsets where the server succeeds). -/
def pageOf {I : Type} (server : Nat → Option (Page I)) (k : Nat) : Page I :=
  (server k).getD { items := [], total := 0, includesUser := [] }

/-- Concatenation, in request order, of the items of the `r` pages starting
at offset `skip` with page size 100. -/
def pagesJoin {I : Type} (server : Nat → Option (Page I)) (skip r : Nat) :
    List I :=
  ((List.range r).map (fun j => (pageOf server (skip + 100 * j)).items)).flatten

/-- The user side-table accumulated over the `r` pages starting at offset
`skip`. -/
def usersAccum {I : Type} (server : Nat → Option (Page I)) (skip r : Nat)
    (acc : Users) : Users :=
  (List.range r).foldl
    (fun a j => (pageOf server (skip + 100 * j)).includesUser.foldl upsertUser a) acc

/-- Number of page requests the loop issues for a fixed server-reported
total `T`: `max 1 ⌈T / 100⌉`. -/
def maxPages (T : Nat) : Nat := max 1 ((T + 99) / 100)

theorem fetchGo_none {I : Type} (server : Nat → Option (Page I)) (fuel skip : Nat)
    (st : FetchResult I) (h : server skip = none) :
    fetchGo server (fuel + 1) skip st
      = { st with offsets := st.offsets ++ [skip], failed := true } := by
  simp [fetchGo, h]

theorem fetchGo_last {I : Type} (server : Nat → Option (Page I)) (fuel skip : Nat)
    (st : FetchResult I) (pg : Page I) (h : server skip = some pg)
    (hstop : ¬ skip + 100 < pg.total) :
    fetchGo server (fuel + 1) skip st = pageStep st skip pg := by
  simp [fetchGo, h, hstop]

theorem fetchGo_cont {I : Type} (server : Nat → Option (Page I)) (fuel skip : Nat)
    (st : FetchResult I) (pg : Page I) (h : server skip = some pg)
    (hlt : skip + 100 < pg.total) :
    fetchGo server (fuel + 1) skip st
      = fetchGo server fuel (skip + 100) (pageStep st skip pg) := by
  simp [fetchGo, h, hlt]

theorem pagesJoin_zero {I : Type} (server : Nat → Option (Page I)) (skip : Nat) :
    pagesJoin server skip 0 = [] := by
  simp [pagesJoin]

theorem pagesJoin_succ {I : Type} (server : Nat → Option (Page I)) (skip r : Nat) :
    pagesJoin server skip (r + 1)
      = (pageOf server skip).items ++ pagesJoin server (skip + 100) r := by
  simp only [pagesJoin, List.range_succ_eq_map, List.map_cons, List.map_map,
    List.flatten_cons, Nat.mul_zero, Nat.add_zero]
  have h : ((fun j => (pageOf server (skip + 100 * j)).items) ∘ Nat.succ)
      = fun j => (pageOf server (skip + 100 + 100 * j)).items := by
    funext j
    simp only [Function.comp_apply, Nat.succ_eq_add_one]
    congr 1
    ring_nf
  rw [h]

theorem pagesJoin_succ_last {I : Type} (server : Nat → Option (Page I)) (skip r : Nat) :
    pagesJoin server skip (r + 1)
      = pagesJoin server skip r ++ (pageOf server (skip + 100 * r)).items := by
  simp [pagesJoin, List.range_succ]

theorem usersAccum_zero {I : Type} (server : Nat → Option (Page I)) (skip : Nat)
    (acc : Users) : usersAccum server skip 0 acc = acc := by
  simp [usersAccum]

theorem usersAccum_succ {I : Type} (server : Nat → Option (Page I)) (skip r : Nat)
    (acc : Users) :
    usersAccum server skip (r + 1) acc
      = usersAccum server (skip + 100) r
          ((pageOf server skip).includesUser.foldl upsertUser acc) := by
  simp only [usersAccum, List.range_succ_eq_map, List.foldl_cons, List.foldl_map,
    Nat.mul_zero, Nat.add_zero]
  congr 1
  funext a j
  simp only [Nat.succ_eq_add_one]
  congr 2
  ring_nf

theorem offsetsRange_succ (skip r : Nat) :
    (List.range (r + 1)).map (fun j => skip + 100 * j)
      = skip :: (List.range r).map (fun j => skip + 100 + 100 * j) := by
  simp only [List.range_succ_eq_map, List.map_cons, List.map_map, Nat.mul_zero,
    Nat.add_zero]
  have h : ((fun j => skip + 100 * j) ∘ Nat.succ)
      = fun j => skip + 100 + 100 * j := by
    funext j
    simp only [Function.comp_apply, Nat.succ_eq_add_one]
    ring_nf
  rw [h]

/-- Running the pagination loop through `r` consecutive successful pages,
each of which reports a total strictly beyond the next offset, accumulates
those pages' items, users and offsets and continues from offset
`skip + 100 * r`. -/
theorem fetchGo_run {I : Type} (server : Nat → Option (Page I)) :
    ∀ (r skip fuel : Nat) (st : FetchResult I), r ≤ fuel →
    (∀ j, j < r → ∃ pg, server (skip + 100 * j) = some pg
        ∧ skip + 100 * j + 100 < pg.total) →
    fetchGo server fuel skip st
      = fetchGo server (fuel - r) (skip + 100 * r)
          { allItems := st.allItems ++ pagesJoin server skip r
            allUsers := usersAccum server skip r st.allUsers
            offsets := st.offsets ++ (List.range r).map (fun j => skip + 100 * j)
            failed := st.failed } := by
  intro r
  induction r with
  | zero =>
    intro skip fuel st _ _
    simp [pagesJoin_zero, usersAccum_zero]
  | succ r ih =>
    intro skip fuel st hfuel hok
    obtain ⟨pg, hpg, hlt⟩ := hok 0 (Nat.succ_pos r)
    simp only [Nat.mul_zero, Nat.add_zero] at hpg hlt
    obtain ⟨fuel', rfl⟩ : ∃ fuel', fuel = fuel' + 1 := by
      refine ⟨fuel - 1, ?_⟩
      omega
    rw [fetchGo_cont server fuel' skip st pg hpg hlt]
    rw [ih (skip + 100) fuel' (pageStep st skip pg) (by omega) ?_]
    · have hoff : (List.range (r + 1)).map (fun j => skip + 100 * j)
          = skip :: (List.range r).map (fun j => skip + 100 + 100 * j) :=
        offsetsRange_succ skip r
      have hjoin := pagesJoin_succ server skip r
      have husers := usersAccum_succ server skip r st.allUsers
      have hfuel' : fuel' + 1 - (r + 1) = fuel' - r := by omega
      have harith : skip + 100 * (r + 1) = skip + 100 + 100 * r := by ring_nf
      simp only [pageStep, hoff, hjoin, husers, hfuel', harith, pageOf, hpg,
        Option.getD_some, List.append_assoc, List.cons_append, List.nil_append,
        List.singleton_append]
    · intro j hj
      obtain ⟨pg', hpg', hlt'⟩ := hok (j + 1) (by omega)
      refine ⟨pg', ?_, ?_⟩
      · have : skip + 100 + 100 * j = skip + 100 * (j + 1) := by ring_nf
        rw [this]
        exact hpg'
      · have : skip + 100 + 100 * j + 100 = skip + 100 * (j + 1) + 100 := by ring_nf
        rw [this]
        exact hlt'

theorem maxPages_pos (T : Nat) : 1 ≤ maxPages T := le_max_left 1 _

theorem maxPages_mul_ge (T : Nat) : T ≤ 100 * maxPages T := by
  have h2 : maxPages T = max 1 ((T + 99) / 100) := rfl
  omega

theorem lt_of_succ_lt_maxPages (T j : Nat) (h : j + 1 < maxPages T) :
    100 * (j + 1) < T := by
  have h2 : maxPages T = max 1 ((T + 99) / 100) := rfl
  omega

/-- C2: with a fixed server-reported total `T`, the pagination loop issues
exactly `max 1 ⌈T / 100⌉` page requests, at offsets `0, 100, 200, ...`,
returns the concatenation of all pages' items in request order, and does
not end in the error branch.  (Instantiating `T = 250` gives 3 requests at
offsets 0, 100, 200 with all 250 items concatenated; `T = 0` gives one
request and, the page being empty, an empty result — see the witness.) -/
theorem C2_pagination {I : Type} (server : Nat → Option (Page I)) (T fuel : Nat)
    (hfix : ∀ k, ∃ pg, server k = some pg ∧ pg.total = T)
    (hfuel : maxPages T ≤ fuel) :
    (fetchPagedDataWithIncludes server fuel).offsets
        = (List.range (maxPages T)).map (fun j => 100 * j)
    ∧ (fetchPagedDataWithIncludes server fuel).allItems
        = pagesJoin server 0 (maxPages T)
    ∧ (fetchPagedDataWithIncludes server fuel).failed = false := by
  obtain ⟨m, hm⟩ : ∃ m, maxPages T = m + 1 :=
    ⟨maxPages T - 1, by have := maxPages_pos T; omega⟩
  have hok : ∀ j, j < m → ∃ pg, server (0 + 100 * j) = some pg
      ∧ 0 + 100 * j + 100 < pg.total := by
    intro j hj
    obtain ⟨pg, hpg, htot⟩ := hfix (0 + 100 * j)
    refine ⟨pg, hpg, ?_⟩
    rw [htot]
    have := lt_of_succ_lt_maxPages T j (by omega)
    omega
  have hrun := fetchGo_run server m 0 fuel
    { allItems := [], allUsers := [], offsets := [], failed := false }
    (by omega) hok
  obtain ⟨pg, hpg, htot⟩ := hfix (0 + 100 * m)
  have hstop : ¬ (0 + 100 * m + 100 < pg.total) := by
    rw [htot]
    have := maxPages_mul_ge T
    omega
  obtain ⟨f', hf'⟩ : ∃ f', fuel - m = f' + 1 := ⟨fuel - m - 1, by omega⟩
  unfold fetchPagedDataWithIncludes
  rw [hrun, hf', fetchGo_last server f' (0 + 100 * m) _ pg hpg hstop]
  refine ⟨?_, ?_, ?_⟩
  · simp [pageStep, hm, List.range_succ]
  · simp only [pageStep, hm, pagesJoin_succ_last, pageOf, hpg, Option.getD_some,
      List.nil_append]
  · simp [pageStep]

/-- A concrete server with 250 items (numbered by position) and fixed
reported total 250: page `k` carries items `k, ..., k + min 100 (250-k) - 1`. -/
def server250 : Nat → Option (Page Nat) := fun k =>
  some { items := (List.range (min 100 (250 - k))).map (fun i => k + i)
         total := 250
         includesUser := [] }

/-- A concrete server reporting total 0 with no items. -/
def server0 : Nat → Option (Page Nat) := fun _ =>
  some { items := [], total := 0, includesUser := [] }

/-- Witness for C2: total 250 gives exactly 3 requests at offsets 0, 100,
200 and 250 concatenated items; total 0 gives one request and an empty
result. -/
theorem C2_pagination_witness :
    (fetchPagedDataWithIncludes server250 3).offsets = [0, 100, 200]
    ∧ (fetchPagedDataWithIncludes server250 3).allItems.length = 250
    ∧ (fetchPagedDataWithIncludes server250 3).failed = false
    ∧ (fetchPagedDataWithIncludes server0 1).offsets = [0]
    ∧ (fetchPagedDataWithIncludes server0 1).allItems = []
    ∧ (fetchPagedDataWithIncludes server0 1).failed = false := by
  have h250 := C2_pagination server250 250 3
    (fun k => ⟨_, rfl, rfl⟩) (by decide)
  have h0 := C2_pagination server0 0 1
    (fun k => ⟨_, rfl, rfl⟩) (by decide)
  refine ⟨?_, ?_, h250.2.2, ?_, ?_, h0.2.2⟩
  · rw [h250.1]; decide
  · rw [h250.2.1]; decide
  · rw [h0.1]; decide
  · rw [h0.2.1]; decide

/-- The unified output record for one user: the object stored in `userMap`. -/
structure UserRecord where
  userId : String
  email : String
  name : String
  orgRoles : List String
  spaceRoles : List String
  teams : List String
deriving Repr, DecidableEq

/-- The `userMap` plain object, modelled as an insertion-ordered
association list (JS objects iterate string keys in insertion order). -/
abbrev UserMap := List (String × UserRecord)

/-- Model of `userMap[userId]` as a read: the value stored at key `k`. -/
def mapFind : UserMap → String → Option UserRecord
  | [], _ => none
  | p :: m, k => if p.1 = k then some p.2 else mapFind m k

/-- The keys of the map, in insertion order (`Object.keys`). -/
def keys (m : UserMap) : List String := m.map (·.1)

/-- In-place mutation of the record stored at key `k`
(`userMap[userId].field = ...`): every entry with that key is rewritten,
other entries untouched. -/
def setAt (m : UserMap) (k : String) (f : UserRecord → UserRecord) : UserMap :=
  m.map (fun p => if p.1 = k then (p.1, f p.2) else p)

/-- The record created by the org- and space-membership loops when a user
identifier is first seen: email and name come from the side-table entry
(empty when absent), all three name lists start empty. -/
def mkRecord (uid : String) (uo : Option UserRec) : UserRecord :=
  { userId := uid
    email := (uo.map (·.email)).getD ""
    name := deriveName ((uo.map (·.firstName)).getD "") ((uo.map (·.lastName)).getD "")
    orgRoles := []
    spaceRoles := []
    teams := [] }

/-- The create-if-absent-then-mutate pattern shared by all three merge
loops: `if (!userMap[userId]) userMap[userId] = create(userId);` followed by
an in-place field update of `userMap[userId]`. -/
def mergeStep (create : String → UserRecord) (upd : UserRecord → UserRecord)
    (m : UserMap) (uid : String) : UserMap :=
  let m1 := match mapFind m uid with
    | some _ => m
    | none => m ++ [(uid, create uid)]
  setAt m1 uid upd

/-- One iteration of the organization-membership merge loop: skip when the
item has no resolvable user identifier, otherwise create the record if
absent (email/name from the org side-table) and union the item's role names
into `orgRoles`. -/
def mergeOrgItem (users : Users) (m : UserMap) (item : Membership) : UserMap :=
  if item.userId = "" then m
  else
    mergeStep (fun uid => mkRecord uid (usersGet users uid))
      (fun u => { u with orgRoles := setUnion u.orgRoles (getRoleNames item) })
      m item.userId

/-- One iteration of the space-membership merge loop: identical to the org
loop except that the roles are unioned into `spaceRoles`. -/
def mergeSpaceItem (users : Users) (m : UserMap) (item : Membership) : UserMap :=
  if item.userId = "" then m
  else
    mergeStep (fun uid => mkRecord uid (usersGet users uid))
      (fun u => { u with spaceRoles := setUnion u.spaceRoles (getRoleNames item) })
      m item.userId

/-- One iteration of the team merge loop over `Object.entries(userToTeams)`:
the record created here has empty email and name, and the entry's team
names are unioned into `teams`. -/
def mergeTeamEntry (m : UserMap) (e : String × List String) : UserMap :=
  mergeStep
    (fun uid => { userId := uid, email := "", name := "", orgRoles := [],
                  spaceRoles := [], teams := [] })
    (fun u => { u with teams := setUnion u.teams e.2 })
    m e.1

/-- The whole aggregation: organization memberships first, then space
memberships, then team memberships, starting from the empty `userMap`. -/
def processAll (orgItems : List Membership) (orgUsers : Users)
    (spaceItems : List Membership) (spaceUsers : Users)
    (userToTeams : List (String × List String)) : UserMap :=
  userToTeams.foldl mergeTeamEntry
    (spaceItems.foldl (mergeSpaceItem spaceUsers)
      (orgItems.foldl (mergeOrgItem orgUsers) []))

/-- A team as returned by the teams endpoint: identifier (`""` when
missing) and display name. -/
structure Team where
  id : String
  name : String
deriving Repr, DecidableEq

/-- The inner loop body of `fetchTeamMemberships`: skip a membership with
no user identifier, else push the team name onto the user's list (creating
the list on first encounter). -/
def addTeamMember (teamName : String)
    (acc : List (String × List String)) (mem : Membership) :
    List (String × List String) :=
  if mem.userId = "" then acc
  else if acc.any (fun p => p.1 = mem.userId) then
    acc.map (fun p => if p.1 = mem.userId then (p.1, p.2 ++ [teamName]) else p)
  else acc ++ [(mem.userId, [teamName])]

/-- The outer loop body of `fetchTeamMemberships`: skip a team with no
identifier, else fold that team's membership list. -/
def addTeam (fetchTeam : String → List Membership)
    (acc : List (String × List String)) (team : Team) :
    List (String × List String) :=
  if team.id = "" then acc
  else (fetchTeam team.id).foldl (addTeamMember team.name) acc

/-- Model of `fetchTeamMemberships`: fold all teams into the
user-to-team-names map, `fetchTeam` giving the items of each per-team
membership fetch. -/
def buildUserToTeams (teams : List Team)
    (fetchTeam : String → List Membership) : List (String × List String) :=
  teams.foldl (addTeam fetchTeam) []

theorem mapFind_append_self (m : UserMap) (k : String) (v : UserRecord)
    (h : mapFind m k = none) : mapFind (m ++ [(k, v)]) k = some v := by
  induction m with
  | nil => simp [mapFind]
  | cons a m ih =>
    by_cases ha : a.1 = k
    · simp [mapFind, ha] at h
    · simp only [mapFind, ha, if_false] at h
      simpa [mapFind, ha] using ih h

theorem mapFind_append_ne (m : UserMap) (k k' : String) (v : UserRecord)
    (h : k' ≠ k) : mapFind (m ++ [(k, v)]) k' = mapFind m k' := by
  induction m with
  | nil => simp [mapFind, Ne.symm h]
  | cons a m ih =>
    by_cases ha : a.1 = k'
    · simp [mapFind, ha]
    · simpa [mapFind, ha] using ih

theorem mapFind_setAt_some (m : UserMap) (k : String) (u : UserRecord)
    (f : UserRecord → UserRecord) (h : mapFind m k = some u) :
    mapFind (setAt m k f) k = some (f u) := by
  induction m with
  | nil => simp [mapFind] at h
  | cons a m ih =>
    by_cases ha : a.1 = k
    · simp only [mapFind, ha, if_true] at h
      cases h
      simp [setAt, mapFind, ha]
    · simp only [mapFind, ha, if_false] at h
      simpa [setAt, mapFind, ha] using ih h

theorem mapFind_setAt_ne (m : UserMap) (k k' : String)
    (f : UserRecord → UserRecord) (h : k' ≠ k) :
    mapFind (setAt m k f) k' = mapFind m k' := by
  induction m with
  | nil => simp [setAt, mapFind]
  | cons a m ih =>
    by_cases ha : a.1 = k
    · have hne : ¬ a.1 = k' := by
        rw [ha]
        exact fun hh => h hh.symm
      simpa [setAt, mapFind, ha, Ne.symm h] using ih
    · by_cases ha' : a.1 = k'
      · simp [setAt, mapFind, ha, ha', h]
      · simpa [setAt, mapFind, ha, ha'] using ih

theorem keys_setAt (m : UserMap) (k : String) (f : UserRecord → UserRecord) :
    keys (setAt m k f) = keys m := by
  induction m with
  | nil => rfl
  | cons a m ih =>
    by_cases ha : a.1 = k
    · simpa [setAt, keys, ha] using ih
    · simpa [setAt, keys, ha] using ih

theorem mapFind_eq_none_iff (m : UserMap) (k : String) :
    mapFind m k = none ↔ k ∉ keys m := by
  induction m with
  | nil => simp [mapFind, keys]
  | cons a m ih =>
    by_cases ha : a.1 = k
    · simp [mapFind, keys, ha]
    · simp only [mapFind, ha, if_false, keys, List.map_cons, List.mem_cons]
      rw [ih]
      constructor
      · intro hk hor
        rcases hor with hk0 | hk'
        · exact ha hk0.symm
        · exact hk hk'
      · intro hk hk'
        exact hk (Or.inr hk')

theorem mem_keys_iff_isSome (m : UserMap) (k : String) :
    k ∈ keys m ↔ (mapFind m k).isSome := by
  rcases h : mapFind m k with _ | u
  · simp [(mapFind_eq_none_iff m k).1 h]
  · simp only [Option.isSome_some, iff_true]
    by_contra hk
    rw [(mapFind_eq_none_iff m k).2 hk] at h
    cases h

theorem find_mergeStep_self_some (c : String → UserRecord)
    (f : UserRecord → UserRecord) (m : UserMap) (uid : String) (u : UserRecord)
    (h : mapFind m uid = some u) :
    mapFind (mergeStep c f m uid) uid = some (f u) := by
  simp only [mergeStep, h]
  exact mapFind_setAt_some m uid u f h

theorem find_mergeStep_self_none (c : String → UserRecord)
    (f : UserRecord → UserRecord) (m : UserMap) (uid : String)
    (h : mapFind m uid = none) :
    mapFind (mergeStep c f m uid) uid = some (f (c uid)) := by
  simp only [mergeStep, h]
  exact mapFind_setAt_some _ uid (c uid) f (mapFind_append_self m uid (c uid) h)

theorem find_mergeStep_ne (c : String → UserRecord)
    (f : UserRecord → UserRecord) (m : UserMap) (uid k : String)
    (h : k ≠ uid) :
    mapFind (mergeStep c f m uid) k = mapFind m k := by
  rcases hm : mapFind m uid with _ | u
  · simp only [mergeStep, hm]
    rw [mapFind_setAt_ne _ uid k f h, mapFind_append_ne m uid k _ h]
  · simp only [mergeStep, hm]
    exact mapFind_setAt_ne m uid k f h

theorem keys_mergeStep_some (c : String → UserRecord)
    (f : UserRecord → UserRecord) (m : UserMap) (uid : String) (u : UserRecord)
    (h : mapFind m uid = some u) :
    keys (mergeStep c f m uid) = keys m := by
  simp only [mergeStep, h]
  exact keys_setAt m uid f

theorem keys_mergeStep_none (c : String → UserRecord)
    (f : UserRecord → UserRecord) (m : UserMap) (uid : String)
    (h : mapFind m uid = none) :
    keys (mergeStep c f m uid) = keys m ++ [uid] := by
  simp only [mergeStep, h]
  rw [keys_setAt]
  simp [keys]

theorem mem_keys_mergeStep (c : String → UserRecord)
    (f : UserRecord → UserRecord) (m : UserMap) (uid k : String) :
    k ∈ keys (mergeStep c f m uid) ↔ k ∈ keys m ∨ k = uid := by
  rcases hm : mapFind m uid with _ | u
  · simp [keys_mergeStep_none c f m uid hm]
  · simp only [keys_mergeStep_some c f m uid u hm]
    constructor
    · exact Or.inl
    · rintro (hk | rfl)
      · exact hk
      · exact (mem_keys_iff_isSome m k).2 (by simp [hm])

theorem nodup_keys_mergeStep (c : String → UserRecord)
    (f : UserRecord → UserRecord) (m : UserMap) (uid : String)
    (h : (keys m).Nodup) : (keys (mergeStep c f m uid)).Nodup := by
  rcases hm : mapFind m uid with _ | u
  · rw [keys_mergeStep_none c f m uid hm]
    simp only [List.nodup_append, List.nodup_singleton]
    refine ⟨h, trivial, ?_⟩
    intro a ha hb
    simp only [List.mem_singleton] at hb
    subst hb
    exact absurd ((mapFind_eq_none_iff m a).1 hm) (fun hh => hh ha)
  · rw [keys_mergeStep_some c f m uid u hm]
    exact h

theorem mergeStep_pointwise (P : UserRecord → Prop) (c : String → UserRecord)
    (f : UserRecord → UserRecord) (m : UserMap) (uid : String)
    (hm : ∀ p ∈ m, P p.2) (hc : P (c uid)) (hf : ∀ u, P u → P (f u)) :
    ∀ p ∈ mergeStep c f m uid, P p.2 := by
  intro p hp
  have hsub : ∀ q ∈ (match mapFind m uid with
      | some _ => m
      | none => m ++ [(uid, c uid)]), P q.2 := by
    rcases hmf : mapFind m uid with _ | u
    · intro q hq
      rcases List.mem_append.1 hq with hq | hq
      · exact hm q hq
      · simp only [List.mem_singleton] at hq
        subst hq
        exact hc
    · exact hm
  simp only [mergeStep] at hp
  rcases List.mem_map.1 hp with ⟨q, hq, hpq⟩
  by_cases hk : q.1 = uid
  · rw [← hpq]
    simp only [hk, if_true]
    exact hf q.2 (hsub q hq)
  · rw [← hpq]
    simp only [hk, if_false]
    exact hsub q hq

/-- Folding a per-item step preserves a pointwise property of all stored
records. -/
theorem foldl_pointwise {α : Type} (step : UserMap → α → UserMap)
    (P : UserRecord → Prop)
    (hstep : ∀ m x, (∀ p ∈ m, P p.2) → ∀ p ∈ step m x, P p.2) :
    ∀ (l : List α) (m : UserMap), (∀ p ∈ m, P p.2) →
      ∀ p ∈ l.foldl step m, P p.2 := by
  intro l
  induction l with
  | nil =>
    intro m hm
    simpa using hm
  | cons x xs ih =>
    intro m hm
    exact ih (step m x) (hstep m x hm)

theorem mergeOrgItem_pointwise (users : Users) (P : UserRecord → Prop)
    (hmk : ∀ uid uo, P (mkRecord uid uo))
    (hupd : ∀ u item, P u → P { u with orgRoles := setUnion u.orgRoles (getRoleNames item) }) :
    ∀ (m : UserMap) (item : Membership), (∀ p ∈ m, P p.2) →
      ∀ p ∈ mergeOrgItem users m item, P p.2 := by
  intro m item hm p hp
  by_cases hid : item.userId = ""
  · rw [mergeOrgItem, if_pos hid] at hp
    exact hm p hp
  · rw [mergeOrgItem, if_neg hid] at hp
    exact mergeStep_pointwise P _ _ m item.userId hm (hmk _ _)
      (fun u hu => hupd u item hu) p hp

theorem mergeSpaceItem_pointwise (users : Users) (P : UserRecord → Prop)
    (hmk : ∀ uid uo, P (mkRecord uid uo))
    (hupd : ∀ u item, P u → P { u with spaceRoles := setUnion u.spaceRoles (getRoleNames item) }) :
    ∀ (m : UserMap) (item : Membership), (∀ p ∈ m, P p.2) →
      ∀ p ∈ mergeSpaceItem users m item, P p.2 := by
  intro m item hm p hp
  by_cases hid : item.userId = ""
  · rw [mergeSpaceItem, if_pos hid] at hp
    exact hm p hp
  · rw [mergeSpaceItem, if_neg hid] at hp
    exact mergeStep_pointwise P _ _ m item.userId hm (hmk _ _)
      (fun u hu => hupd u item hu) p hp

theorem mergeTeamEntry_pointwise (P : UserRecord → Prop)
    (hmk : ∀ uid, P { userId := uid, email := "", name := "", orgRoles := [],
                      spaceRoles := [], teams := [] })
    (hupd : ∀ u ts, P u → P { u with teams := setUnion u.teams ts }) :
    ∀ (m : UserMap) (e : String × List String), (∀ p ∈ m, P p.2) →
      ∀ p ∈ mergeTeamEntry m e, P p.2 := by
  intro m e hm p hp
  exact mergeStep_pointwise P _ _ m e.1 hm (hmk _)
    (fun u hu => hupd u e.2 hu) p hp

/-- C3: a failed page request ends pagination for that call at once (the
`catch` branch, which logs a warning, sets the `failed` observation), no
further requests are issued, and the items and user side-table accumulated
from the pages that succeeded before the failure are returned as the normal
result.  Consequently, when space memberships contribute no items (as when
their very first page failed), the aggregation equals the run without the
space pass at all — organization-membership and team-membership data fully
produced — and every output record's space-role list reflects exactly the
zero successful space pages, i.e. is empty. -/
theorem C3_failsoft (server : Nat → Option (Page Membership)) (f fuel : Nat)
    (hfail : server (100 * f) = none)
    (hok : ∀ j, j < f → ∃ pg, server (100 * j) = some pg
        ∧ 100 * j + 100 < pg.total)
    (hfuel : f < fuel) :
    ((fetchPagedDataWithIncludes server fuel).failed = true
      ∧ (fetchPagedDataWithIncludes server fuel).offsets
          = (List.range (f + 1)).map (fun j => 100 * j)
      ∧ (fetchPagedDataWithIncludes server fuel).allItems = pagesJoin server 0 f
      ∧ (fetchPagedDataWithIncludes server fuel).allUsers = usersAccum server 0 f [])
    ∧ ∀ (orgItems : List Membership) (orgUsers spaceUsers : Users)
        (userToTeams : List (String × List String)),
        processAll orgItems orgUsers [] spaceUsers userToTeams
            = userToTeams.foldl mergeTeamEntry
                (orgItems.foldl (mergeOrgItem orgUsers) [])
          ∧ ∀ p ∈ processAll orgItems orgUsers [] spaceUsers userToTeams,
              p.2.spaceRoles = [] := by
  constructor
  · have hok' : ∀ j, j < f → ∃ pg, server (0 + 100 * j) = some pg
        ∧ 0 + 100 * j + 100 < pg.total := by
      intro j hj
      simpa using hok j hj
    have hrun := fetchGo_run server f 0 fuel
      { allItems := [], allUsers := [], offsets := [], failed := false }
      (by omega) hok'
    obtain ⟨f', hf'⟩ : ∃ f', fuel - f = f' + 1 := ⟨fuel - f - 1, by omega⟩
    unfold fetchPagedDataWithIncludes
    rw [hrun, hf', fetchGo_none server f' (0 + 100 * f) _ (by simpa using hfail)]
    refine ⟨rfl, ?_, by simp, rfl⟩
    simp [List.range_succ]
  · intro orgItems orgUsers spaceUsers userToTeams
    refine ⟨rfl, ?_⟩
    intro p hp
    refine foldl_pointwise mergeTeamEntry (fun u => u.spaceRoles = [])
      ?_ userToTeams _ ?_ p hp
    · intro m e hm
      exact mergeTeamEntry_pointwise (fun u => u.spaceRoles = [])
        (fun uid => rfl) (fun u ts hu => hu) m e hm
    · intro q hq
      refine foldl_pointwise (mergeOrgItem orgUsers) (fun u => u.spaceRoles = [])
        ?_ orgItems [] (by simp) q hq
      intro m item hm
      exact mergeOrgItem_pointwise orgUsers (fun u => u.spaceRoles = [])
        (fun uid uo => rfl) (fun u it hu => hu) m item hm

/-- A server whose very first page request fails. -/
def serverFail0 : Nat → Option (Page Membership) := fun _ => none

/-- A sample organization membership: user `u1`, admin flag set. -/
def orgItemU1 : Membership :=
  { userId := "u1", admin := true, roles := [], role := "" }

/-- A sample org side-table with an entry for `u1`. -/
def orgUsersU1 : Users :=
  [("u1", { id := "u1", email := "ada@example.com", firstName := "Ada",
            lastName := "Lovelace" })]

/-- Witness for C3: a first-page failure returns an empty partial result
after exactly one request, and a pipeline run whose space fetch returned
nothing still produces the org and team data, with empty space-role
lists. -/
theorem C3_failsoft_witness :
    ((fetchPagedDataWithIncludes serverFail0 1).failed = true
      ∧ (fetchPagedDataWithIncludes serverFail0 1).offsets
          = (List.range (0 + 1)).map (fun j => 100 * j)
      ∧ (fetchPagedDataWithIncludes serverFail0 1).allItems = pagesJoin serverFail0 0 0
      ∧ (fetchPagedDataWithIncludes serverFail0 1).allUsers = usersAccum serverFail0 0 0 [])
    ∧ (processAll [orgItemU1] orgUsersU1 [] [] [("u1", ["Design"])]
          = ([("u1", ["Design"])] : List (String × List String)).foldl mergeTeamEntry
              ([orgItemU1].foldl (mergeOrgItem orgUsersU1) [])
        ∧ ∀ p ∈ processAll [orgItemU1] orgUsersU1 [] [] [("u1", ["Design"])],
            p.2.spaceRoles = []) := by
  have h := C3_failsoft serverFail0 0 1 rfl
    (fun j hj => absurd hj (Nat.not_lt_zero j)) (by decide)
  exact ⟨h.1, h.2 [orgItemU1] orgUsersU1 [] [("u1", ["Design"])]⟩

/-- C4: role-name extraction returns the first-occurrence deduplication of
the three sources in their fixed order — the `"Admin"` label when the admin
flag is set, then the named entries of the roles array in array order, then
the legacy role string — so the result has no duplicates, is an
order-preserving subsequence of the concatenated sources, contains exactly
the source names, and deduplicating again changes nothing; the function is
a pure function of the item, so repeated invocation gives the same list. -/
theorem C4_role_names (m : Membership) :
    getRoleNames m = dedupFirst (rolesSources m)
    ∧ (getRoleNames m).Nodup
    ∧ (getRoleNames m).Sublist (rolesSources m)
    ∧ (∀ s, s ∈ getRoleNames m ↔ s ∈ rolesSources m)
    ∧ dedupFirst (getRoleNames m) = getRoleNames m := by
  refine ⟨rfl, dedupFirst_nodup _, dedupFirst_sublist _, ?_, ?_⟩
  · intro s
    exact mem_dedupFirst s (rolesSources m)
  · exact dedupFirst_eq_self _ (dedupFirst_nodup _)

/-- C5: a membership item with no resolvable user identifier is skipped by
the org and space merge loops and by the per-team membership loop (so it
contributes no row, no user-to-teams entry and no record mutation), a team
with no identifier is skipped by the team loop, and in each case the fold
over the remaining items proceeds exactly as if the skipped item were not
there. -/
theorem C5_skip_unresolvable (users : Users) (m : UserMap) (item : Membership)
    (acc : List (String × List String)) (tname : String) (mem : Membership)
    (team : Team) (fetchTeam : String → List Membership)
    (hitem : item.userId = "") (hmem : mem.userId = "") (hteam : team.id = "") :
    mergeOrgItem users m item = m
    ∧ mergeSpaceItem users m item = m
    ∧ addTeamMember tname acc mem = acc
    ∧ addTeam fetchTeam acc team = acc
    ∧ (∀ rest : List Membership,
        (item :: rest).foldl (mergeOrgItem users) m = rest.foldl (mergeOrgItem users) m)
    ∧ (∀ rest : List Membership,
        (item :: rest).foldl (mergeSpaceItem users) m = rest.foldl (mergeSpaceItem users) m)
    ∧ (∀ rest : List Team,
        (team :: rest).foldl (addTeam fetchTeam) acc = rest.foldl (addTeam fetchTeam) acc) := by
  have horg : mergeOrgItem users m item = m := by
    rw [mergeOrgItem, if_pos hitem]
  have hspace : mergeSpaceItem users m item = m := by
    rw [mergeSpaceItem, if_pos hitem]
  have hteammem : addTeamMember tname acc mem = acc := by
    rw [addTeamMember, if_pos hmem]
  have hteamskip : addTeam fetchTeam acc team = acc := by
    rw [addTeam, if_pos hteam]
  refine ⟨horg, hspace, hteammem, hteamskip, ?_, ?_, ?_⟩
  · intro rest
    simp [List.foldl_cons, horg]
  · intro rest
    simp [List.foldl_cons, hspace]
  · intro rest
    simp [List.foldl_cons, hteamskip]

/-- Witness for C5 at concrete skipped items. -/
theorem C5_skip_unresolvable_witness :
    mergeOrgItem orgUsersU1 [] { userId := "", admin := true, roles := [], role := "Dev" } = []
    ∧ mergeSpaceItem orgUsersU1 [] { userId := "", admin := true, roles := [], role := "Dev" } = []
    ∧ addTeamMember "Design" [("u1", ["Ops"])]
        { userId := "", admin := false, roles := [], role := "" } = [("u1", ["Ops"])]
    ∧ addTeam (fun _ => []) [("u1", ["Ops"])] { id := "", name := "Design" } = [("u1", ["Ops"])]
    ∧ (∀ rest : List Membership,
        ({ userId := "", admin := true, roles := [], role := "Dev" } :: rest).foldl
            (mergeOrgItem orgUsersU1) []
          = rest.foldl (mergeOrgItem orgUsersU1) [])
    ∧ (∀ rest : List Membership,
        ({ userId := "", admin := true, roles := [], role := "Dev" } :: rest).foldl
            (mergeSpaceItem orgUsersU1) []
          = rest.foldl (mergeSpaceItem orgUsersU1) [])
    ∧ (∀ rest : List Team,
        (({ id := "", name := "Design" } : Team) :: rest).foldl
            (addTeam (fun _ => [])) [("u1", ["Ops"])]
          = rest.foldl (addTeam (fun _ => [])) [("u1", ["Ops"])]) :=
  C5_skip_unresolvable orgUsersU1 [] _ [("u1", ["Ops"])] "Design" _ _ (fun _ => [])
    rfl rfl rfl

/-- C6: once a record exists for a user identifier, every later merge step
— org, space or team — leaves its `userId`, `email` and `name` unchanged
and modifies only the role/team list named by that pass (email and name are
assigned only at record creation). -/
theorem C6_first_writer_wins (orgU spaceU : Users) (m : UserMap)
    (item : Membership) (e : String × List String) (uid : String)
    (u : UserRecord) (h : mapFind m uid = some u) :
    (∃ u1, mapFind (mergeOrgItem orgU m item) uid = some u1
        ∧ u1.userId = u.userId ∧ u1.email = u.email ∧ u1.name = u.name
        ∧ u1.spaceRoles = u.spaceRoles ∧ u1.teams = u.teams)
    ∧ (∃ u2, mapFind (mergeSpaceItem spaceU m item) uid = some u2
        ∧ u2.userId = u.userId ∧ u2.email = u.email ∧ u2.name = u.name
        ∧ u2.orgRoles = u.orgRoles ∧ u2.teams = u.teams)
    ∧ (∃ u3, mapFind (mergeTeamEntry m e) uid = some u3
        ∧ u3.userId = u.userId ∧ u3.email = u.email ∧ u3.name = u.name
        ∧ u3.orgRoles = u.orgRoles ∧ u3.spaceRoles = u.spaceRoles) := by
  refine ⟨?_, ?_, ?_⟩
  · by_cases hid : item.userId = ""
    · rw [mergeOrgItem, if_pos hid]
      exact ⟨u, h, rfl, rfl, rfl, rfl, rfl⟩
    · rw [mergeOrgItem, if_neg hid]
      by_cases huid : uid = item.userId
      · subst huid
        exact ⟨_, find_mergeStep_self_some _ _ m _ u h, rfl, rfl, rfl, rfl, rfl⟩
      · refine ⟨u, ?_, rfl, rfl, rfl, rfl, rfl⟩
        rw [find_mergeStep_ne _ _ m item.userId uid huid]
        exact h
  · by_cases hid : item.userId = ""
    · rw [mergeSpaceItem, if_pos hid]
      exact ⟨u, h, rfl, rfl, rfl, rfl, rfl⟩
    · rw [mergeSpaceItem, if_neg hid]
      by_cases huid : uid = item.userId
      · subst huid
        exact ⟨_, find_mergeStep_self_some _ _ m _ u h, rfl, rfl, rfl, rfl, rfl⟩
      · refine ⟨u, ?_, rfl, rfl, rfl, rfl, rfl⟩
        rw [find_mergeStep_ne _ _ m item.userId uid huid]
        exact h
  · by_cases huid : uid = e.1
    · subst huid
      exact ⟨_, find_mergeStep_self_some _ _ m _ u h, rfl, rfl, rfl, rfl, rfl⟩
    · refine ⟨u, ?_, rfl, rfl, rfl, rfl, rfl⟩
      rw [mergeTeamEntry, find_mergeStep_ne _ _ m e.1 uid huid]
      exact h

/-- A record for `u1` as created by the org pass, used by the witnesses. -/
def recU1 : UserRecord :=
  { userId := "u1", email := "ada@example.com", name := "Ada Lovelace",
    orgRoles := ["Admin"], spaceRoles := [], teams := [] }

/-- Witness for C6: a later space merge touching `u1` preserves identity
fields and the other lists. -/
theorem C6_first_writer_wins_witness :
    (∃ u1, mapFind (mergeOrgItem [] [("u1", recU1)]
          { userId := "u1", admin := false, roles := [{ name := "Dev" }], role := "" }) "u1" = some u1
        ∧ u1.userId = recU1.userId ∧ u1.email = recU1.email ∧ u1.name = recU1.name
        ∧ u1.spaceRoles = recU1.spaceRoles ∧ u1.teams = recU1.teams)
    ∧ (∃ u2, mapFind (mergeSpaceItem [] [("u1", recU1)]
          { userId := "u1", admin := false, roles := [{ name := "Dev" }], role := "" }) "u1" = some u2
        ∧ u2.userId = recU1.userId ∧ u2.email = recU1.email ∧ u2.name = recU1.name
        ∧ u2.orgRoles = recU1.orgRoles ∧ u2.teams = recU1.teams)
    ∧ (∃ u3, mapFind (mergeTeamEntry [("u1", recU1)] ("u1", ["Design"])) "u1" = some u3
        ∧ u3.userId = recU1.userId ∧ u3.email = recU1.email ∧ u3.name = recU1.name
        ∧ u3.orgRoles = recU1.orgRoles ∧ u3.spaceRoles = recU1.spaceRoles) :=
  C6_first_writer_wins [] [] [("u1", recU1)]
    { userId := "u1", admin := false, roles := [{ name := "Dev" }], role := "" }
    ("u1", ["Design"]) "u1" recU1 rfl

theorem mapFind_mem (m : UserMap) (k : String) (u : UserRecord)
    (h : mapFind m k = some u) : ∃ p ∈ m, p.2 = u := by
  induction m with
  | nil => cases h
  | cons a m ih =>
    by_cases ha : a.1 = k
    · rw [mapFind, if_pos ha] at h
      cases h
      exact ⟨a, List.mem_cons_self a m, rfl⟩
    · rw [mapFind, if_neg ha] at h
      obtain ⟨p, hp, hpu⟩ := ih h
      exact ⟨p, List.mem_cons_of_mem a hp, hpu⟩

/-- The deduplication invariant on a unified-record map: every stored
record's three name lists contain no duplicates. -/
def RecordsOk (m : UserMap) : Prop :=
  ∀ p ∈ m, p.2.orgRoles.Nodup ∧ p.2.spaceRoles.Nodup ∧ p.2.teams.Nodup

/-- C7: each merge step of all three passes preserves the invariant that
every record's organization-role, space-role and team lists are free of
duplicates; no key is ever deleted; and a step only ever extends a stored
record's lists at the end, preserving first-encounter order. -/
theorem C7_invariants (orgU spaceU : Users) (m : UserMap) (item : Membership)
    (e : String × List String) (hm : RecordsOk m) :
    (RecordsOk (mergeOrgItem orgU m item)
      ∧ RecordsOk (mergeSpaceItem spaceU m item)
      ∧ RecordsOk (mergeTeamEntry m e))
    ∧ (∀ uid, uid ∈ keys m →
        uid ∈ keys (mergeOrgItem orgU m item)
        ∧ uid ∈ keys (mergeSpaceItem spaceU m item)
        ∧ uid ∈ keys (mergeTeamEntry m e))
    ∧ (∀ uid u, mapFind m uid = some u →
        (∃ u1 ext, mapFind (mergeOrgItem orgU m item) uid = some u1
          ∧ u1.orgRoles = u.orgRoles ++ ext
          ∧ u1.spaceRoles = u.spaceRoles ∧ u1.teams = u.teams)
        ∧ (∃ u2 ext, mapFind (mergeSpaceItem spaceU m item) uid = some u2
          ∧ u2.spaceRoles = u.spaceRoles ++ ext
          ∧ u2.orgRoles = u.orgRoles ∧ u2.teams = u.teams)
        ∧ (∃ u3 ext, mapFind (mergeTeamEntry m e) uid = some u3
          ∧ u3.teams = u.teams ++ ext
          ∧ u3.orgRoles = u.orgRoles ∧ u3.spaceRoles = u.spaceRoles)) := by
  have hOk : ∀ l : List String, ∀ names, l.Nodup → (setUnion l names).Nodup :=
    fun l names _ => setUnion_nodup l names
  refine ⟨⟨?_, ?_, ?_⟩, ?_, ?_⟩
  · exact fun p hp => mergeOrgItem_pointwise orgU
      (fun u => u.orgRoles.Nodup ∧ u.spaceRoles.Nodup ∧ u.teams.Nodup)
      (fun uid uo => ⟨List.nodup_nil, List.nodup_nil, List.nodup_nil⟩)
      (fun u it hu => ⟨setUnion_nodup _ _, hu.2.1, hu.2.2⟩)
      m item hm p hp
  · exact fun p hp => mergeSpaceItem_pointwise spaceU
      (fun u => u.orgRoles.Nodup ∧ u.spaceRoles.Nodup ∧ u.teams.Nodup)
      (fun uid uo => ⟨List.nodup_nil, List.nodup_nil, List.nodup_nil⟩)
      (fun u it hu => ⟨hu.1, setUnion_nodup _ _, hu.2.2⟩)
      m item hm p hp
  · exact fun p hp => mergeTeamEntry_pointwise
      (fun u => u.orgRoles.Nodup ∧ u.spaceRoles.Nodup ∧ u.teams.Nodup)
      (fun uid => ⟨List.nodup_nil, List.nodup_nil, List.nodup_nil⟩)
      (fun u ts hu => ⟨hu.1, hu.2.1, setUnion_nodup _ _⟩)
      m e hm p hp
  · intro uid huid
    refine ⟨?_, ?_, ?_⟩
    · by_cases hid : item.userId = ""
      · rw [mergeOrgItem, if_pos hid]
        exact huid
      · rw [mergeOrgItem, if_neg hid]
        exact (mem_keys_mergeStep _ _ m item.userId uid).2 (Or.inl huid)
    · by_cases hid : item.userId = ""
      · rw [mergeSpaceItem, if_pos hid]
        exact huid
      · rw [mergeSpaceItem, if_neg hid]
        exact (mem_keys_mergeStep _ _ m item.userId uid).2 (Or.inl huid)
    · rw [mergeTeamEntry]
      exact (mem_keys_mergeStep _ _ m e.1 uid).2 (Or.inl huid)
  · intro uid u hu
    have hnd : u.orgRoles.Nodup ∧ u.spaceRoles.Nodup ∧ u.teams.Nodup := by
      obtain ⟨p, hp, hpu⟩ := mapFind_mem m uid u hu
      exact hpu ▸ hm p hp
    refine ⟨?_, ?_, ?_⟩
    · by_cases hid : item.userId = ""
      · refine ⟨u, [], ?_, by simp, rfl, rfl⟩
        rw [mergeOrgItem, if_pos hid]
        exact hu
      · by_cases huid : uid = item.userId
        · obtain ⟨ext, hext⟩ := setUnion_eq_append u.orgRoles (getRoleNames item) hnd.1
          refine ⟨{ u with orgRoles := setUnion u.orgRoles (getRoleNames item) },
            ext, ?_, hext, rfl, rfl⟩
          rw [mergeOrgItem, if_neg hid]
          subst huid
          exact find_mergeStep_self_some _ _ m _ u hu
        · refine ⟨u, [], ?_, by simp, rfl, rfl⟩
          rw [mergeOrgItem, if_neg hid, find_mergeStep_ne _ _ m item.userId uid huid]
          exact hu
    · by_cases hid : item.userId = ""
      · refine ⟨u, [], ?_, by simp, rfl, rfl⟩
        rw [mergeSpaceItem, if_pos hid]
        exact hu
      · by_cases huid : uid = item.userId
        · obtain ⟨ext, hext⟩ := setUnion_eq_append u.spaceRoles (getRoleNames item) hnd.2.1
          refine ⟨{ u with spaceRoles := setUnion u.spaceRoles (getRoleNames item) },
            ext, ?_, hext, rfl, rfl⟩
          rw [mergeSpaceItem, if_neg hid]
          subst huid
          exact find_mergeStep_self_some _ _ m _ u hu
        · refine ⟨u, [], ?_, by simp, rfl, rfl⟩
          rw [mergeSpaceItem, if_neg hid, find_mergeStep_ne _ _ m item.userId uid huid]
          exact hu
    · by_cases huid : uid = e.1
      · obtain ⟨ext, hext⟩ := setUnion_eq_append u.teams e.2 hnd.2.2
        refine ⟨{ u with teams := setUnion u.teams e.2 }, ext, ?_, hext, rfl, rfl⟩
        rw [mergeTeamEntry]
        subst huid
        exact find_mergeStep_self_some _ _ m _ u hu
      · refine ⟨u, [], ?_, by simp, rfl, rfl⟩
        rw [mergeTeamEntry, find_mergeStep_ne _ _ m e.1 uid huid]
        exact hu

/-- Witness for C7 at a concrete map and merge items. -/
theorem C7_invariants_witness :
    (RecordsOk (mergeOrgItem [] [("u1", recU1)]
        { userId := "u1", admin := true, roles := [{ name := "Dev" }], role := "" })
      ∧ RecordsOk (mergeSpaceItem [] [("u1", recU1)]
        { userId := "u1", admin := true, roles := [{ name := "Dev" }], role := "" })
      ∧ RecordsOk (mergeTeamEntry [("u1", recU1)] ("u1", ["Design"])))
    ∧ (∀ uid, uid ∈ keys [("u1", recU1)] →
        uid ∈ keys (mergeOrgItem [] [("u1", recU1)]
          { userId := "u1", admin := true, roles := [{ name := "Dev" }], role := "" })
        ∧ uid ∈ keys (mergeSpaceItem [] [("u1", recU1)]
          { userId := "u1", admin := true, roles := [{ name := "Dev" }], role := "" })
        ∧ uid ∈ keys (mergeTeamEntry [("u1", recU1)] ("u1", ["Design"])))
    ∧ (∀ uid u, mapFind [("u1", recU1)] uid = some u →
        (∃ u1 ext, mapFind (mergeOrgItem [] [("u1", recU1)]
              { userId := "u1", admin := true, roles := [{ name := "Dev" }], role := "" }) uid
              = some u1
          ∧ u1.orgRoles = u.orgRoles ++ ext
          ∧ u1.spaceRoles = u.spaceRoles ∧ u1.teams = u.teams)
        ∧ (∃ u2 ext, mapFind (mergeSpaceItem [] [("u1", recU1)]
              { userId := "u1", admin := true, roles := [{ name := "Dev" }], role := "" }) uid
              = some u2
          ∧ u2.spaceRoles = u.spaceRoles ++ ext
          ∧ u2.orgRoles = u.orgRoles ∧ u2.teams = u.teams)
        ∧ (∃ u3 ext, mapFind (mergeTeamEntry [("u1", recU1)] ("u1", ["Design"])) uid = some u3
          ∧ u3.teams = u.teams ++ ext
          ∧ u3.orgRoles = u.orgRoles ∧ u3.spaceRoles = u.spaceRoles)) :=
  C7_invariants [] [] [("u1", recU1)]
    { userId := "u1", admin := true, roles := [{ name := "Dev" }], role := "" }
    ("u1", ["Design"])
    (by
      intro p hp
      simp only [List.mem_singleton] at hp
      subst hp
      refine ⟨?_, ?_, ?_⟩ <;> decide)

/-- Model of `Array.prototype.join(sep)`. -/
def joinSep (sep : String) : List String → String
  | [] => ""
  | [x] => x
  | x :: xs => x ++ sep ++ joinSep sep xs

/-- The `fields` configuration handed to the CSV writer: the six output
columns in order. -/
def csvHeader : List String :=
  ["userId", "email", "name", "orgRoles", "spaceRoles", "teams"]

/-- One output row as built in `finalData`: identity fields verbatim, the
three name lists each joined with a semicolon-and-space separator. -/
def toRow (u : UserRecord) : List String :=
  [u.userId, u.email, u.name, joinSep "; " u.orgRoles,
   joinSep "; " u.spaceRoles, joinSep "; " u.teams]

/-- Model of `finalData = Object.values(userMap).map(...)`: one row per
stored record, in insertion order. -/
def finalData (m : UserMap) : List (List String) :=
  m.map (fun p => toRow p.2)

theorem mem_keys_mergeOrgItem (users : Users) (m : UserMap) (item : Membership)
    (k : String) :
    k ∈ keys (mergeOrgItem users m item)
      ↔ k ∈ keys m ∨ (item.userId ≠ "" ∧ k = item.userId) := by
  by_cases hid : item.userId = ""
  · rw [mergeOrgItem, if_pos hid]
    simp [hid]
  · rw [mergeOrgItem, if_neg hid, mem_keys_mergeStep]
    simp [hid]

theorem mem_keys_mergeSpaceItem (users : Users) (m : UserMap) (item : Membership)
    (k : String) :
    k ∈ keys (mergeSpaceItem users m item)
      ↔ k ∈ keys m ∨ (item.userId ≠ "" ∧ k = item.userId) := by
  by_cases hid : item.userId = ""
  · rw [mergeSpaceItem, if_pos hid]
    simp [hid]
  · rw [mergeSpaceItem, if_neg hid, mem_keys_mergeStep]
    simp [hid]

theorem mem_keys_mergeTeamEntry (m : UserMap) (e : String × List String)
    (k : String) :
    k ∈ keys (mergeTeamEntry m e) ↔ k ∈ keys m ∨ k = e.1 := by
  rw [mergeTeamEntry, mem_keys_mergeStep]

theorem mem_keys_foldl_mergeOrg (users : Users) :
    ∀ (items : List Membership) (m : UserMap) (k : String),
      k ∈ keys (items.foldl (mergeOrgItem users) m)
        ↔ k ∈ keys m ∨ (k ≠ "" ∧ k ∈ items.map Membership.userId) := by
  intro items
  induction items with
  | nil =>
    intro m k
    simp
  | cons item items ih =>
    intro m k
    rw [List.foldl_cons, ih, mem_keys_mergeOrgItem]
    simp only [List.map_cons, List.mem_cons]
    constructor
    · rintro ((hA | ⟨hne, rfl⟩) | ⟨hne, hmem⟩)
      · exact Or.inl hA
      · exact Or.inr ⟨hne, Or.inl rfl⟩
      · exact Or.inr ⟨hne, Or.inr hmem⟩
    · rintro (hA | ⟨hne, (rfl | hmem)⟩)
      · exact Or.inl (Or.inl hA)
      · exact Or.inl (Or.inr ⟨hne, rfl⟩)
      · exact Or.inr ⟨hne, hmem⟩

theorem mem_keys_foldl_mergeSpace (users : Users) :
    ∀ (items : List Membership) (m : UserMap) (k : String),
      k ∈ keys (items.foldl (mergeSpaceItem users) m)
        ↔ k ∈ keys m ∨ (k ≠ "" ∧ k ∈ items.map Membership.userId) := by
  intro items
  induction items with
  | nil =>
    intro m k
    simp
  | cons item items ih =>
    intro m k
    rw [List.foldl_cons, ih, mem_keys_mergeSpaceItem]
    simp only [List.map_cons, List.mem_cons]
    constructor
    · rintro ((hA | ⟨hne, rfl⟩) | ⟨hne, hmem⟩)
      · exact Or.inl hA
      · exact Or.inr ⟨hne, Or.inl rfl⟩
      · exact Or.inr ⟨hne, Or.inr hmem⟩
    · rintro (hA | ⟨hne, (rfl | hmem)⟩)
      · exact Or.inl (Or.inl hA)
      · exact Or.inl (Or.inr ⟨hne, rfl⟩)
      · exact Or.inr ⟨hne, hmem⟩

theorem mem_keys_foldl_team :
    ∀ (entries : List (String × List String)) (m : UserMap) (k : String),
      k ∈ keys (entries.foldl mergeTeamEntry m)
        ↔ k ∈ keys m ∨ k ∈ entries.map Prod.fst := by
  intro entries
  induction entries with
  | nil =>
    intro m k
    simp
  | cons e entries ih =>
    intro m k
    rw [List.foldl_cons, ih, mem_keys_mergeTeamEntry]
    simp only [List.map_cons, List.mem_cons]
    tauto

theorem nodup_keys_mergeOrgItem (users : Users) (m : UserMap) (item : Membership)
    (h : (keys m).Nodup) : (keys (mergeOrgItem users m item)).Nodup := by
  by_cases hid : item.userId = ""
  · rw [mergeOrgItem, if_pos hid]
    exact h
  · rw [mergeOrgItem, if_neg hid]
    exact nodup_keys_mergeStep _ _ m item.userId h

theorem nodup_keys_mergeSpaceItem (users : Users) (m : UserMap) (item : Membership)
    (h : (keys m).Nodup) : (keys (mergeSpaceItem users m item)).Nodup := by
  by_cases hid : item.userId = ""
  · rw [mergeSpaceItem, if_pos hid]
    exact h
  · rw [mergeSpaceItem, if_neg hid]
    exact nodup_keys_mergeStep _ _ m item.userId h

theorem nodup_keys_mergeTeamEntry (m : UserMap) (e : String × List String)
    (h : (keys m).Nodup) : (keys (mergeTeamEntry m e)).Nodup :=
  nodup_keys_mergeStep _ _ m e.1 h

theorem foldl_nodup_keys {α : Type} (step : UserMap → α → UserMap)
    (hstep : ∀ m x, (keys m).Nodup → (keys (step m x)).Nodup) :
    ∀ (l : List α) (m : UserMap), (keys m).Nodup →
      (keys (l.foldl step m)).Nodup := by
  intro l
  induction l with
  | nil =>
    intro m hm
    exact hm
  | cons x xs ih =>
    intro m hm
    exact ih (step m x) (hstep m x hm)

theorem nodup_keys_processAll (orgItems spaceItems : List Membership)
    (orgUsers spaceUsers : Users) (userToTeams : List (String × List String)) :
    (keys (processAll orgItems orgUsers spaceItems spaceUsers userToTeams)).Nodup := by
  refine foldl_nodup_keys mergeTeamEntry nodup_keys_mergeTeamEntry userToTeams _ ?_
  refine foldl_nodup_keys (mergeSpaceItem spaceUsers)
    (nodup_keys_mergeSpaceItem spaceUsers) spaceItems _ ?_
  refine foldl_nodup_keys (mergeOrgItem orgUsers)
    (nodup_keys_mergeOrgItem orgUsers) orgItems [] ?_
  simp [keys]

/-- C8: serialization of the final map produces exactly one data row per
distinct user identifier encountered in any of the three sources (the keys
are duplicate-free and are exactly the non-empty identifiers of org and
space items together with the user-to-teams keys), under the six-column
header `userId,email,name,orgRoles,spaceRoles,teams`, each row carrying the
record's identity fields and its three name lists joined with the
semicolon-and-space separator. -/
theorem C8_serialization (orgItems spaceItems : List Membership)
    (orgUsers spaceUsers : Users) (userToTeams : List (String × List String)) :
    (keys (processAll orgItems orgUsers spaceItems spaceUsers userToTeams)).Nodup
    ∧ (∀ uid, uid ∈ keys (processAll orgItems orgUsers spaceItems spaceUsers userToTeams)
        ↔ (uid ≠ "" ∧ (uid ∈ orgItems.map Membership.userId
              ∨ uid ∈ spaceItems.map Membership.userId))
          ∨ uid ∈ userToTeams.map Prod.fst)
    ∧ (finalData (processAll orgItems orgUsers spaceItems spaceUsers userToTeams)).length
        = (keys (processAll orgItems orgUsers spaceItems spaceUsers userToTeams)).length
    ∧ csvHeader = ["userId", "email", "name", "orgRoles", "spaceRoles", "teams"]
    ∧ csvHeader.length = 6
    ∧ (∀ u : UserRecord,
        toRow u = [u.userId, u.email, u.name, joinSep "; " u.orgRoles,
          joinSep "; " u.spaceRoles, joinSep "; " u.teams]
        ∧ (toRow u).length = 6) := by
  refine ⟨nodup_keys_processAll orgItems spaceItems orgUsers spaceUsers userToTeams,
    ?_, ?_, rfl, rfl, fun u => ⟨rfl, rfl⟩⟩
  · intro uid
    unfold processAll
    rw [mem_keys_foldl_team, mem_keys_foldl_mergeSpace, mem_keys_foldl_mergeOrg]
    simp only [keys, List.map_nil, List.not_mem_nil, false_or]
    tauto
  · simp [finalData, keys]

/-- C9: first-encounter wins even for empty values.  When the stored record
for an identifier has empty email and name (as created by a pass that had
no side-table entry), a later org or space merge — even one whose
side-table now holds a non-empty email or name for that identifier — and a
later team merge all leave both fields empty. -/
theorem C9_empty_fields_stay (users : Users) (m : UserMap) (item : Membership)
    (ts : List String) (u : UserRecord) (ur : UserRec)
    (h : mapFind m item.userId = some u)
    (hemail : u.email = "") (hname : u.name = "")
    (hside : usersGet users item.userId = some ur)
    (hnonempty : ur.email ≠ "" ∨ ur.firstName ≠ "" ∨ ur.lastName ≠ "") :
    (∃ u1, mapFind (mergeOrgItem users m item) item.userId = some u1
        ∧ u1.email = "" ∧ u1.name = "")
    ∧ (∃ u2, mapFind (mergeSpaceItem users m item) item.userId = some u2
        ∧ u2.email = "" ∧ u2.name = "")
    ∧ (∃ u3, mapFind (mergeTeamEntry m (item.userId, ts)) item.userId = some u3
        ∧ u3.email = "" ∧ u3.name = "") := by
  refine ⟨?_, ?_, ?_⟩
  · by_cases hid : item.userId = ""
    · rw [mergeOrgItem, if_pos hid]
      exact ⟨u, h, hemail, hname⟩
    · rw [mergeOrgItem, if_neg hid]
      exact ⟨_, find_mergeStep_self_some _ _ m _ u h, hemail, hname⟩
  · by_cases hid : item.userId = ""
    · rw [mergeSpaceItem, if_pos hid]
      exact ⟨u, h, hemail, hname⟩
    · rw [mergeSpaceItem, if_neg hid]
      exact ⟨_, find_mergeStep_self_some _ _ m _ u h, hemail, hname⟩
  · rw [mergeTeamEntry]
    exact ⟨_, find_mergeStep_self_some _ _ m _ u h, hemail, hname⟩

/-- A record for `u2` created with empty email and name (no side-table
entry at creation time). -/
def emptyRecU2 : UserRecord :=
  { userId := "u2", email := "", name := "", orgRoles := [],
    spaceRoles := [], teams := ["Design"] }

/-- Witness for C9: the side-table now has a non-empty entry for `u2`, yet
all three merges leave its email and name empty. -/
theorem C9_empty_fields_stay_witness :
    (∃ u1, mapFind (mergeOrgItem
        [("u2", { id := "u2", email := "grace@example.com", firstName := "Grace",
                  lastName := "Hopper" })]
        [("u2", emptyRecU2)]
        { userId := "u2", admin := false, roles := [], role := "Editor" }) "u2" = some u1
      ∧ u1.email = "" ∧ u1.name = "")
    ∧ (∃ u2, mapFind (mergeSpaceItem
        [("u2", { id := "u2", email := "grace@example.com", firstName := "Grace",
                  lastName := "Hopper" })]
        [("u2", emptyRecU2)]
        { userId := "u2", admin := false, roles := [], role := "Editor" }) "u2" = some u2
      ∧ u2.email = "" ∧ u2.name = "")
    ∧ (∃ u3, mapFind (mergeTeamEntry [("u2", emptyRecU2)] ("u2", ["Ops"])) "u2" = some u3
      ∧ u3.email = "" ∧ u3.name = "") :=
  C9_empty_fields_stay
    [("u2", { id := "u2", email := "grace@example.com", firstName := "Grace",
              lastName := "Hopper" })]
    [("u2", emptyRecU2)]
    { userId := "u2", admin := false, roles := [], role := "Editor" }
    ["Ops"] emptyRecU2
    { id := "u2", email := "grace@example.com", firstName := "Grace",
      lastName := "Hopper" }
    rfl rfl rfl rfl (Or.inl (by decide))

theorem trimChars_parts (d : List Char) (h : trimChars d = d) :
    d.dropWhile Char.isWhitespace = d
    ∧ List.rdropWhile Char.isWhitespace d = d := by
  have hsub1 : (d.dropWhile Char.isWhitespace) <:+ d := List.dropWhile_suffix _
  have hview : trimChars d
      = List.rdropWhile Char.isWhitespace (d.dropWhile Char.isWhitespace) := rfl
  have hsub2 : (trimChars d).length ≤ (d.dropWhile Char.isWhitespace).length := by
    rw [hview, List.rdropWhile]
    rw [List.length_reverse]
    have := (List.dropWhile_suffix (l := (d.dropWhile Char.isWhitespace).reverse)
      (p := Char.isWhitespace)).length_le
    simpa using this
  have hlen : (trimChars d).length = d.length := by rw [h]
  have hle1 : (d.dropWhile Char.isWhitespace).length ≤ d.length := hsub1.length_le
  have heq1 : (d.dropWhile Char.isWhitespace).length = d.length := by omega
  have h1 : d.dropWhile Char.isWhitespace = d := hsub1.eq_of_length heq1
  refine ⟨h1, ?_⟩
  rw [hview, h1] at h
  exact h

theorem jsTrim_space_left (l : String) (h : jsTrim l = l) :
    jsTrim (" " ++ l) = l := by
  have hd : trimChars l.data = l.data := congrArg String.data h
  obtain ⟨h1, h2⟩ := trimChars_parts l.data hd
  show String.mk (trimChars (' ' :: l.data)) = l
  have key : trimChars (' ' :: l.data) = l.data := by
    have hview : trimChars (' ' :: l.data)
        = List.rdropWhile Char.isWhitespace ((' ' :: l.data).dropWhile Char.isWhitespace) :=
      rfl
    rw [hview, List.dropWhile_cons, if_pos (by decide), h1, h2]
  rw [key]

theorem trimChars_append_space (d : List Char)
    (h1 : d.dropWhile Char.isWhitespace = d)
    (h2 : List.rdropWhile Char.isWhitespace d = d) :
    trimChars (d ++ [' ']) = d := by
  rcases d with _ | ⟨c, t⟩
  · decide
  · have hc : ¬ c.isWhitespace = true := by
      have := List.dropWhile_eq_self_iff.mp h1
      simpa using this (by simp)
    have hview : trimChars ((c :: t) ++ [' '])
        = List.rdropWhile Char.isWhitespace
            (((c :: t) ++ [' ']).dropWhile Char.isWhitespace) := rfl
    rw [hview, List.cons_append, List.dropWhile_cons, if_neg hc,
      ← List.cons_append,
      List.rdropWhile_concat_pos Char.isWhitespace (c :: t) ' ' (by decide), h2]

theorem jsTrim_space_right (l : String) (h : jsTrim l = l) :
    jsTrim (l ++ " ") = l := by
  have hd : trimChars l.data = l.data := congrArg String.data h
  obtain ⟨h1, h2⟩ := trimChars_parts l.data hd
  show String.mk (trimChars (l.data ++ [' '])) = l
  rw [trimChars_append_space l.data h1 h2]

/-- C10: the derived display name is the first and last name joined by a
single space and then trimmed of surrounding whitespace, absent parts
behaving as the empty string: both parts empty (in particular, no
side-table entry at all) give the empty string, and when only one part is
present the result is exactly that part, with no leading or trailing space
added (the part itself carrying none). -/
theorem C10_display_name (uid firstName lastName : String) :
    deriveName firstName lastName = jsTrim (firstName ++ " " ++ lastName)
    ∧ deriveName "" "" = ""
    ∧ (mkRecord uid none).name = ""
    ∧ (mkRecord uid none).email = ""
    ∧ (jsTrim lastName = lastName → deriveName "" lastName = lastName)
    ∧ (jsTrim firstName = firstName → deriveName firstName "" = firstName) := by
  have hboth : deriveName "" "" = "" := by decide
  refine ⟨rfl, hboth, hboth, rfl, ?_, ?_⟩
  · intro hl
    show jsTrim ("" ++ " " ++ lastName) = lastName
    have heq : ("" ++ " " ++ lastName) = " " ++ lastName := rfl
    rw [heq]
    exact jsTrim_space_left lastName hl
  · intro hf
    show jsTrim (firstName ++ " " ++ "") = firstName
    have heq : (firstName ++ " " ++ "") = firstName ++ " " := by
      simp
    rw [heq]
    exact jsTrim_space_right firstName hf

/-- Witness for C10 at concrete names free of surrounding whitespace. -/
theorem C10_display_name_witness :
    deriveName "Ada" "Lovelace" = jsTrim ("Ada" ++ " " ++ "Lovelace")
    ∧ deriveName "" "" = ""
    ∧ (mkRecord "u1" none).name = ""
    ∧ (mkRecord "u1" none).email = ""
    ∧ deriveName "" "Lovelace" = "Lovelace"
    ∧ deriveName "Ada" "" = "Ada" := by
  obtain ⟨h1, h2, h3, h4, h5, h6⟩ := C10_display_name "u1" "Ada" "Lovelace"
  exact ⟨h1, h2, h3, h4, h5 (by decide), h6 (by decide)⟩

/-- The environment of one run: the endpoint families as offset-indexed
servers (the team-membership family indexed by team identifier), and
whether the final `fs.writeFileSync` throws. -/
structure Env where
  orgServer : Nat → Option (Page Membership)
  spaceServer : Nat → Option (Page Membership)
  teamsServer : Nat → Option (Page Team)
  teamMemServer : String → Nat → Option (Page Membership)
  writeFails : Bool

/-- The observable outcome of one run: the CSV table written (header row
then data rows; `none` when the write threw), whether the top-level
`catch` logged an error, and the process exit status. -/
structure RunResult where
  written : Option (List (List String))
  errorLogged : Bool
  exitCode : Nat
deriving Repr

/-- The unified map computed by one run: the three fetches followed by the
three merge passes. -/
def pipelineOf (env : Env) (fuel : Nat) : UserMap :=
  processAll
    (fetchPagedDataWithIncludes env.orgServer fuel).allItems
    (fetchPagedDataWithIncludes env.orgServer fuel).allUsers
    (fetchPagedDataWithIncludes env.spaceServer fuel).allItems
    (fetchPagedDataWithIncludes env.spaceServer fuel).allUsers
    (buildUserToTeams (fetchPagedDataWithIncludes env.teamsServer fuel).allItems
      (fun tid => (fetchPagedDataWithIncludes (env.teamMemServer tid) fuel).allItems))

/-- The CSV artifact: the header row followed by the data rows. -/
def csvTable (m : UserMap) : List (List String) := csvHeader :: finalData m

/-- Model of the script's main async IIFE.  The whole body runs inside one
`try`; a failing file write throws, reaches the top-level `catch`, which
only logs the error (`console.error`) — nothing in the script sets a
non-zero exit code, so the process terminates normally with status 0 in
both cases. -/
def mainRun (env : Env) (fuel : Nat) : RunResult :=
  if env.writeFails then
    { written := none, errorLogged := true, exitCode := 0 }
  else
    { written := some (csvTable (pipelineOf env fuel)), errorLogged := false,
      exitCode := 0 }

/-- A server that always returns an empty page with total 0. -/
def trivialServer : Nat → Option (Page Membership) := fun _ =>
  some { items := [], total := 0, includesUser := [] }

/-- A teams server that always returns an empty page with total 0. -/
def trivialTeamServer : Nat → Option (Page Team) := fun _ =>
  some { items := [], total := 0, includesUser := [] }

/-- An environment whose final file write throws. -/
def envFailWrite : Env :=
  { orgServer := trivialServer, spaceServer := trivialServer,
    teamsServer := trivialTeamServer, teamMemServer := fun _ => trivialServer,
    writeFails := true }

/-- Counterexample for C1 as stated: on a run whose file write fails, the
error is logged but the exit status is 0, not non-zero — the top-level
`catch` swallows the failure and the process terminates normally. -/
theorem C1_counterexample :
    (mainRun envFailWrite 1).errorLogged = true
    ∧ ¬ ((mainRun envFailWrite 1).exitCode ≠ 0) :=
  ⟨rfl, fun h => h rfl⟩

/-- C1 (amended): the success path writes the CSV file and the process
exits with status zero; a top-level failure (e.g. a file-system write
failure) is caught at the process boundary and logged, no file is written
(no partial-file cleanup is attempted), and the process still exits with
status zero — the script never sets a non-zero exit status. -/
theorem C1_exit_behavior (env : Env) (fuel : Nat) :
    (mainRun env fuel).exitCode = 0
    ∧ (mainRun env fuel).errorLogged = env.writeFails
    ∧ (mainRun env fuel).written
        = (if env.writeFails then none
           else some (csvTable (pipelineOf env fuel))) := by
  by_cases h : env.writeFails <;> simp [mainRun, h]

end ContentfulExport
